import Mathlib

/-!
Verification of the data-preparation and reward-computation core of a
sequence-to-sequence toolkit (joeynmt/metrics.py and joeynmt/helpers.py),
against its natural-language specification.

Integer id grids (2-D numpy arrays) are modelled as lists of rows
(`List (List Int)`); numpy arrays are rectangular, which theorems assume
explicitly where it matters.  Float results are modelled as rationals.
Python functions that can raise (assertion failures) return `Option`.
-/

/-- Shape of a 2-D numpy array modelled as a list of rows: the number of rows
and the number of columns (for a numpy array all rows have the same length,
so the column count is the first row's length, 0 when there are no rows). -/
def gridShape (g : List (List Int)) : Nat × Nat :=
  (g.length, (g.head?.map List.length).getD 0)

/-- Rectangularity of a grid: every row has the column count the shape
states.  Every real numpy 2-D array satisfies this. -/
def IsRect (g : List (List Int)) : Prop :=
  ∀ r ∈ g, r.length = (gridShape g).2

instance (g : List (List Int)) : Decidable (IsRect g) := by
  unfold IsRect
  exact List.decidableBAll _ g

/-- Positions of value `v` in row `g`, in increasing order: models
`np.where(g == v)[0]` in `token_edit_reward`. -/
def wherePositions (g : List Int) (v : Int) : List Nat :=
  (List.range g.length).filter (fun i => g.getD i 0 = v)

/-- Models `closest_dist = np.abs(np.min(k - p_index[0]))` of
`token_edit_reward`: the absolute value of the minimum of the signed
differences `k - position` over the occurrences of `v` in `g`
(`getD 0` covers the unused empty case; the code only reaches this with
`v` occurring in `g`). -/
def closestDist (g : List Int) (k : Nat) (v : Int) : Nat :=
  ((((wherePositions g v).map (fun p => (k : Int) - (p : Int))).min?).getD 0).natAbs

/-- One cell of `token_edit_reward`'s double loop, for gold row `g`, row
width `L`(`= gold.shape[1]`), gold id `gi` and predicted id `pi` at time
step `k`. -/
def editCell (g : List Int) (L : Nat) (shifted : Bool) (gi pi : Int) (k : Nat) : ℚ :=
  if pi = gi then 1
  else if pi ∈ g ∧ shifted = true then
    1 - (closestDist g k pi : ℚ) / (L : ℚ)
  else 0

/-- One row of `token_edit_reward`: the row starts as zeros of the predicted
row's length (`np.zeros_like`), and the loop `zip(g, p)` writes the first
`min (len g) (len p)` positions. -/
def editRow (g p : List Int) (L : Nat) (shifted : Bool) : List ℚ :=
  (List.range p.length).map (fun k =>
    if k < g.length then editCell g L shifted (g.getD k 0) (p.getD k 0) k else 0)

/-- Model of `token_edit_reward(gold, pred, shifted)` of metrics.py: asserts
equal shapes (`none` models the `AssertionError`), then per batch row gives
1.0 at exact matches, the shift reward `1 - closest_dist / length` where the
predicted id occurs elsewhere in the gold row (when `shifted`), and 0
otherwise.  Rows of `pred` beyond `zip(gold, pred)` would stay zero. -/
def token_edit_reward (gold pred : List (List Int)) (shifted : Bool) :
    Option (List (List ℚ)) :=
  if gridShape gold = gridShape pred then
    some ((List.range pred.length).map (fun j =>
      if j < gold.length then
        editRow (gold.getD j []) (pred.getD j []) (gridShape gold).2 shifted
      else (pred.getD j []).map (fun _ => 0)))
  else none

/-- Model of `token_recall_reward(gold, pred)` of metrics.py: reward 1 where
the predicted id occurs anywhere in the gold row, 0 elsewhere; rows of
`pred` beyond `zip(gold, pred)` stay zero (there is no shape assertion). -/
def token_recall_reward (gold pred : List (List Int)) : List (List ℚ) :=
  (List.range pred.length).map (fun j =>
    if j < gold.length then
      (pred.getD j []).map (fun pi => if pi ∈ gold.getD j [] then (1 : ℚ) else 0)
    else (pred.getD j []).map (fun _ => 0))

/-- Length of the longest common suffix of `p[0..x)` and `g[0..y)`: the DP
table entry `m[x][y]` of `longest_common_substring_rewards` (metrics.py),
which satisfies `m[x][y] = m[x-1][y-1] + 1` when `pred[x-1] == gold[y-1]`
and 0 otherwise. -/
def slen (p g : List Int) : Nat → Nat → Nat
  | 0, _ => 0
  | _ + 1, 0 => 0
  | x + 1, y + 1 => if p.getD x 0 = g.getD y 0 then slen p g x y + 1 else 0

/-- One update of the scan state `(longest, x_longest)` at table cell `xy`:
the state changes only when `m[x][y]` strictly exceeds `longest`. -/
def scanStep (p g : List Int) (st : Nat × Nat) (xy : Nat × Nat) : Nat × Nat :=
  if slen p g xy.1 xy.2 > st.1 then (slen p g xy.1 xy.2, xy.1) else st

/-- The cell visit order of the double loop `for x in range(1, 1+len(pred)):
for y in range(1, 1+len(gold))`. -/
def scanPairs (P G : Nat) : List (Nat × Nat) :=
  (List.range P).flatMap (fun x => (List.range G).map (fun y => (x + 1, y + 1)))

/-- Model of the inner `longest_common_substring_rewards(pred, gold)` of
metrics.py: run the scan and set `rewards[x_longest - longest : x_longest]`
to 1 on a zero row of the predicted row's length. -/
def longest_common_substring_rewards (p g : List Int) : List ℚ :=
  let st := (scanPairs p.length g.length).foldl (scanStep p g) (0, 0)
  (List.range p.length).map (fun k => if st.2 - st.1 ≤ k ∧ k < st.2 then 1 else 0)

/-- Model of `token_lcs_reward(gold, pred)` of metrics.py: each batch row of
`zip(gold, pred)` gets its longest-common-substring rewards added to a zero
row; rows of `pred` beyond the zip stay zero (no shape assertion). -/
def token_lcs_reward (gold pred : List (List Int)) : List (List ℚ) :=
  (List.range pred.length).map (fun j =>
    if j < gold.length then
      longest_common_substring_rewards (pred.getD j []) (gold.getD j [])
    else (pred.getD j []).map (fun _ => 0))

/-- A common contiguous run of length `L`: the predicted ids at positions
`s, s+1, …, s+L-1` equal the gold ids at positions `y, …, y+L-1` (a common
substring of the two rows). -/
def isCommonRun (p g : List Int) (s y L : Nat) : Prop :=
  s + L ≤ p.length ∧ y + L ≤ g.length ∧
    ∀ t < L, p.getD (s + t) 0 = g.getD (y + t) 0

/-- A reward row of length `len` holding 1.0 exactly at the positions of
the half-open interval `[s, s + L)` and 0 elsewhere. -/
def marksRun (len s L : Nat) : List ℚ :=
  (List.range len).map (fun k => if s ≤ k ∧ k < s + L then 1 else 0)

/-- Division of two numpy integer scalars as used in `f1_bin`: `none`
models the non-finite result of a zero denominator.  In `f1_bin` on 0/1
arrays each numerator is a summand of its denominator, so a zero
denominator forces a zero numerator and the result there is `0/0 = nan`,
which `none` models exactly (the comparison `nan > 0` is false, as `f1val`
treats a `none` operand). -/
def npDiv (a b : Int) : Option ℚ := if b = 0 then none else some ((a : ℚ) / (b : ℚ))

/-- Bitwise complement `~n` of a numpy signed integer: the two's-complement
identity `~n = -n - 1`. -/
def pyNot (x : Int) : Int := -x - 1

/-- Bitwise AND `&` of two numpy signed integers in two's complement.  A
non-negative `m` has the bits of `m`; `Int.negSucc m = -(m+1)` has the bits
of `NOT m`.  The four cases: bits of `a AND b`, of `a AND NOT b` (which over
unbounded binary equals `a XOR (a AND b)`, since `a AND b` is a sub-mask of
`a`), symmetrically `b AND NOT a`, and `NOT a AND NOT b = NOT (a OR b)`. -/
def pyAnd : Int → Int → Int
  | .ofNat m, .ofNat n => .ofNat (Nat.land m n)
  | .ofNat m, .negSucc n => .ofNat (Nat.xor m (Nat.land m n))
  | .negSucc m, .ofNat n => .ofNat (Nat.xor n (Nat.land n m))
  | .negSucc m, .negSucc n => .negSucc (Nat.lor m n)

/-- Models `tp_1 = (hypotheses & references).sum()` of `f1_bin`. -/
def tp1 (h r : List Int) : Int := ((h.zip r).map (fun x => pyAnd x.1 x.2)).sum

/-- Models `tp_0 = ((1 - hypotheses) & (1 - references)).sum()` of `f1_bin`. -/
def tp0 (h r : List Int) : Int :=
  ((h.zip r).map (fun x => pyAnd (1 - x.1) (1 - x.2))).sum

/-- Models `fp_1 = (hypotheses & ~references).sum()` of `f1_bin`. -/
def fp1 (h r : List Int) : Int :=
  ((h.zip r).map (fun x => pyAnd x.1 (pyNot x.2))).sum

/-- Models `fn_1 = (~hypotheses & references).sum()` of `f1_bin`. -/
def fn1 (h r : List Int) : Int :=
  ((h.zip r).map (fun x => pyAnd (pyNot x.1) x.2)).sum

/-- Models `prec_1 = tp_1 / (tp_1 + fp_1)` of `f1_bin`. -/
def prec1 (h r : List Int) : Option ℚ := npDiv (tp1 h r) (tp1 h r + fp1 h r)

/-- Models `rec_1 = tp_1 / (tp_1 + fn_1)` of `f1_bin`. -/
def rec1 (h r : List Int) : Option ℚ := npDiv (tp1 h r) (tp1 h r + fn1 h r)

/-- Models `prec_0 = tp_0 / (tp_0 + fn_1)` of `f1_bin`. -/
def prec0 (h r : List Int) : Option ℚ := npDiv (tp0 h r) (tp0 h r + fn1 h r)

/-- Models `rec_0 = tp_0 / (tp_0 + fp_1)` of `f1_bin`. -/
def rec0 (h r : List Int) : Option ℚ := npDiv (tp0 h r) (tp0 h r + fp1 h r)

/-- Models `2 * (prec * rec) / (prec + rec) if (prec + rec) > 0 else 0`:
when either factor is non-finite (`none`) the sum is `nan`, the comparison
`nan > 0` is false, and the branch yields the integer 0. -/
def f1val (p r : Option ℚ) : ℚ :=
  match p, r with
  | some p, some r => if p + r > 0 then 2 * (p * r) / (p + r) else 0
  | _, _ => 0

/-- Model of `f1_bin(hypotheses, references)` of metrics.py over 1-D integer
arrays: `none` models a failing `assert` (equal sizes; the four counts
partition the array). -/
def f1_bin (h r : List Int) : Option (ℚ × ℚ) :=
  if h.length = r.length then
    if tp0 h r + tp1 h r + fn1 h r + fp1 h r = (h.length : Int) then
      some (f1val (prec1 h r) (rec1 h r), f1val (prec0 h r) (rec0 h r))
    else none
  else none

/-- Modelled from the spec: the unknown special token (joeynmt/constants.py
is not among the given source files; the spec fixes only the order unknown,
pad, begin-of-sequence, end-of-sequence and that index 0 is the unknown
token, so the literal spellings are free). -/
def UNK_TOKEN : String := "<unk>"

/-- Modelled from the spec: the padding special token. -/
def PAD_TOKEN : String := "<pad>"

/-- Modelled from the spec: the begin-of-sequence special token. -/
def BOS_TOKEN : String := "<s>"

/-- Modelled from the spec: the end-of-sequence special token. -/
def EOS_TOKEN : String := "</s>"

/-- Modelled from the spec: `DEFAULT_UNK_ID()` of joeynmt/constants.py; the
spec says the unknown token occupies index 0. -/
def DEFAULT_UNK_ID : Nat := 0

/-- The fixed special-token prefix `[UNK_TOKEN, PAD_TOKEN, BOS_TOKEN,
EOS_TOKEN]` of `build_vocab` (helpers.py). -/
def specials : List String := [UNK_TOKEN, PAD_TOKEN, BOS_TOKEN, EOS_TOKEN]

/-- Python list slicing `l[:n]`: the first `n` elements for `n ≥ 0`, and all
but the last `-n` elements for negative `n` (clamped at an empty list). -/
def pySlice (n : Int) (l : List α) : List α :=
  if 0 ≤ n then l.take n.toNat else l.take (l.length - (-n).toNat)

/-- Sort key of `sorted(counter.items(), key=lambda tup: tup[0])` in
`sort_and_cut`: ascending token string. -/
def tokLe (a b : String × Nat) : Prop := a.1 ≤ b.1

/-- Sort key of `tokens_and_frequencies.sort(key=lambda tup: tup[1],
reverse=True)` in `sort_and_cut`: descending frequency. -/
def freqGe (a b : String × Nat) : Prop := b.2 ≤ a.2

instance : DecidableRel tokLe := fun a b => inferInstanceAs (Decidable (a.1 ≤ b.1))

instance : DecidableRel freqGe := fun a b => inferInstanceAs (Decidable (b.2 ≤ a.2))

instance : IsTotal (String × Nat) tokLe := ⟨fun a b => le_total a.1 b.1⟩

instance : IsTrans (String × Nat) tokLe := ⟨fun _ _ _ h1 h2 => le_trans h1 h2⟩

instance : IsTotal (String × Nat) freqGe := ⟨fun a b => le_total b.2 a.2⟩

instance : IsTrans (String × Nat) freqGe := ⟨fun _ _ _ h1 h2 => le_trans h2 h1⟩

/-- Model of `sort_and_cut(counter, limit)` of helpers.py: a Python
`Counter` is modelled as a list of (token, count) pairs with distinct
tokens; both Python sorts are stable, as is `List.insertionSort`, so the
two stable passes (alphabetical ascending, then frequency descending) and
the Python slice `[:limit]` are modelled directly. -/
def sort_and_cut (counter : List (String × Nat)) (limit : Int) : List String :=
  let tokens_and_frequencies := List.insertionSort tokLe counter
  let resorted := List.insertionSort freqGe tokens_and_frequencies
  (pySlice limit resorted).map Prod.fst

/-- Model of the inner `filter_min(counter, min_freq)` of `build_vocab`:
keep the tokens whose count is at least `min_freq`. -/
def filter_min (counter : List (String × Nat)) (min_freq : Int) : List (String × Nat) :=
  counter.filter (fun tc => min_freq ≤ (tc.2 : Int))

/-- Model of the counting path of `build_vocab(field, max_size, min_freq,
data)` of helpers.py (no vocab file): filter by minimum frequency when
`min_freq > -1`, prepend the specials to `sort_and_cut`, and check the two
`assert` statements (`vocab_tokens[DEFAULT_UNK_ID()] == UNK_TOKEN` and
`len(vocab_tokens) <= max_size + len(specials)`); `none` models an
`AssertionError`. -/
def build_vocab (counter : List (String × Nat)) (max_size min_freq : Int) :
    Option (List String) :=
  let c := if min_freq > -1 then filter_min counter min_freq else counter
  let vocab_tokens := specials ++ sort_and_cut c max_size
  if vocab_tokens.getD DEFAULT_UNK_ID "" = UNK_TOKEN then
    if (vocab_tokens.length : Int) ≤ max_size + (specials.length : Int) then
      some vocab_tokens
    else none
  else none

/-- The claimed vocabulary order: strictly descending frequency, with ties
at equal frequency broken by strictly ascending token string. -/
def freqThenTok (a b : String × Nat) : Prop :=
  b.2 < a.2 ∨ (a.2 = b.2 ∧ a.1 < b.1)

/-- A 2-D tensor in the functional style: a row count, a column count, and
the entry at each index pair (entries outside the bounds are irrelevant).
The `tile` chain in helpers.py first flattens its input to
`(batch, -1)`, so two dimensions model the general case: the column axis
stands for the row-major flattening of all non-batch axes. -/
structure T2 (alpha : Type) where
  rows : Nat
  cols : Nat
  get : Nat → Nat → alpha

/-- Models `Tensor.transpose(0, 1)`: swap the two axes. -/
def T2.transpose (t : T2 alpha) : T2 alpha :=
  ⟨t.cols, t.rows, fun i j => t.get j i⟩

/-- Models `Tensor.repeat(count, 1)`: concatenate `count` copies along the
row axis, so row `i` of the result is row `i % rows` of the input. -/
def T2.repeatRows (t : T2 alpha) (count : Nat) : T2 alpha :=
  ⟨count * t.rows, t.cols, fun i j => t.get (i % t.rows) j⟩

/-- Models `contiguous().view(r, c)`: reinterpret the row-major stream of
entries with the new shape, so entry `(i, j)` of the result is the entry of
the input at flat offset `i * c + j`. -/
def T2.reshape (t : T2 alpha) (r c : Nat) : T2 alpha :=
  ⟨r, c, fun i j => t.get ((i * c + j) / t.cols) ((i * c + j) % t.cols)⟩

/-- Model of `tile(x, count)` of helpers.py on the batch axis (`dim=0`; for
`dim != 0` the code first permutes the target axis to the front, and a
paired state recurses into both members): `x.view(batch, -1).transpose(0,
1).repeat(count, 1).transpose(0, 1).contiguous().view(batch * count, -1)`,
with `out_size[0] = batch * count`. -/
def tile (t : T2 alpha) (count : Nat) : T2 alpha :=
  (((((t.reshape t.rows t.cols).transpose).repeatRows count).transpose).reshape
    (t.rows * count) t.cols)

/-- Models Python `str.strip()` on the corpus and weight lines: remove
leading and trailing whitespace. -/
def pyStrip (s : String) : String := s.trim

/-- Value of a list of decimal digit characters. -/
def digitsToNat (cs : List Char) : Nat :=
  cs.foldl (fun n c => 10 * n + (c.toNat - 48)) 0

/-- Unsigned part of Python `float(s)`: decimal digits with at most one
point and at least one digit (`none` models `ValueError`; the scientific
notation and special values Python also accepts do not appear in weight
files and are not modelled). -/
def floatCore (cs : List Char) : Option ℚ :=
  let intPart := cs.takeWhile Char.isDigit
  let rest := cs.drop intPart.length
  match rest with
  | [] => if intPart.isEmpty then none else some ((digitsToNat intPart : ℚ))
  | '.' :: frac =>
    if frac.all Char.isDigit ∧ (intPart ≠ [] ∨ frac ≠ []) then
      some ((digitsToNat intPart : ℚ) + (digitsToNat frac : ℚ) / ((10 : ℚ) ^ frac.length))
    else none
  | _ => none

/-- Model of Python `float(weight)` on a weight token: an optional sign
followed by `floatCore`. -/
def pyFloat? (s : String) : Option ℚ :=
  match s.data with
  | '-' :: t => (floatCore t).map (fun q => -q)
  | '+' :: t => floatCore t
  | t => floatCore t

/-- Models one weight line of `WeightedTranslationDataset.__init__`
(helpers.py): `[np.exp(float(weight)) if log_weights else float(weight) for
weight in weights_line.strip().split(" ")]`.  `np.exp` is transcendental,
so it is passed in as an uninterpreted function `pyexp`; `none` models the
`ValueError` of a malformed float token. -/
def parseWeights (line : String) (log_weights : Bool) (pyexp : ℚ → ℚ) :
    Option (List ℚ) :=
  ((pyStrip line).splitOn " ").mapM
    (fun w => (pyFloat? w).map (fun q => if log_weights then pyexp q else q))

/-- Python `zip` over three lists: the aligned triples up to the shortest
list. -/
def zip3 (a : List α) (b : List β) (c : List γ) : List (α × β × γ) :=
  (a.zip (b.zip c)).map (fun x => (x.1, x.2.1, x.2.2))

/-- One iteration of the example-assembly loop of
`WeightedTranslationDataset.__init__` (helpers.py) for the line triple
`stw`: the line's weights are parsed (before the emptiness test, as in the
source; `none` models an uncaught `ValueError` from a malformed weight
token), and a (source, target, weights) example is kept when both stripped
lines are non-empty. -/
def weightedStep (log_weights : Bool) (pyexp : ℚ → ℚ)
    (stw : String × String × String)
    (acc : Option (List (String × String × List ℚ))) :
    Option (List (String × String × List ℚ)) :=
  match acc, parseWeights stw.2.2 log_weights pyexp with
  | some exs, some ws =>
    let s := pyStrip stw.1
    let t := pyStrip stw.2.1
    some (if s ≠ "" ∧ t ≠ "" then (s, t, ws) :: exs else exs)
  | _, _ => none

/-- Model of the example-assembly loop of
`WeightedTranslationDataset.__init__` (helpers.py): the three files (given
as their line lists) are consumed in lock-step by
`zip(src_file, trg_file, weight_file)`, appending examples in line
order. -/
def weightedTranslationDatasetInit (src trg wts : List String)
    (log_weights : Bool) (pyexp : ℚ → ℚ) :
    Option (List (String × String × List ℚ)) :=
  (zip3 src trg wts).foldr (weightedStep log_weights pyexp) (some [])

example : token_edit_reward [[7, 8, 8, 7]] [[9, 7, 9, 9]] true =
    some [[0, 1/2, 0, 0]] := by with_unfolding_all decide

example : token_lcs_reward [[1, 2, 3, 4]] [[9, 2, 3, 9]] = [[0, 1, 1, 0]] := by
  with_unfolding_all decide

example : token_recall_reward [[1, 2, 3]] [[5, 2, 9]] = [[0, 1, 0]] := by
  with_unfolding_all decide

example : f1_bin (List.replicate 5 0) (List.replicate 5 0) = some (0, 1) := by
  with_unfolding_all decide

example : pyAnd (pyNot 1) 1 = 0 := by decide

example : (pyAnd 1 1, pyAnd 1 0, pyAnd 0 1, pyAnd 0 0) = (1, 0, 0, 0) := by decide

example : build_vocab [("b", 2), ("a", 2), ("c", 1)] 100 1 =
    some (specials ++ ["a", "b", "c"]) := by with_unfolding_all decide

example : build_vocab [("a", 1)] (-1) (-1) = none := by decide

example : sort_and_cut [("a", 2), ("b", 1)] (-1) = ["a"] := by with_unfolding_all decide

example : weightedTranslationDatasetInit ["s1", "s2", "s3"] ["t1", "t2"] ["0.5 1.5"]
    false id = some [("s1", "t1", [1/2, 3/2])] := by with_unfolding_all decide

example : (tile ⟨2, 2, fun i j => 10 * i + j⟩ 3).get 2 1 = 1 := by decide

theorem div_mul_add (q r d : Nat) (h : r < d) : (d * q + r) / d = q := by
  rw [Nat.mul_add_div (by omega)]
  simp [Nat.div_eq_of_lt h]

theorem mod_mul_add (q r d : Nat) (h : r < d) : (d * q + r) % d = r := by
  rw [Nat.mul_add_mod]
  exact Nat.mod_eq_of_lt h

/-- C5: tiling a state with replication count `count` multiplies the batch
axis by `count` and places the copies of each original row contiguously:
row `i * count + j` of the result is row `i` of the input, not an
interleaved order. -/
theorem tile_rows_grouped (t : T2 alpha) (count i j c : Nat)
    (hi : i < t.rows) (hj : j < count) (hc : c < t.cols) :
    (tile t count).rows = t.rows * count ∧ (tile t count).cols = t.cols ∧
    (tile t count).get (i * count + j) c = t.get i c := by
  refine ⟨rfl, rfl, ?_⟩
  simp only [tile, T2.reshape, T2.transpose, T2.repeatRows]
  have h1 : (i * count + j) * t.cols + c = (count * t.cols) * i + (j * t.cols + c) := by
    ring
  have h2 : j * t.cols + c < count * t.cols := by
    have e1 : (j + 1) * t.cols = j * t.cols + t.cols := by ring
    have e2 : (j + 1) * t.cols ≤ count * t.cols := Nat.mul_le_mul_right _ (by omega)
    omega
  rw [h1, div_mul_add _ _ _ h2, mod_mul_add _ _ _ h2]
  have h3 : j * t.cols + c = t.cols * j + c := by ring
  rw [h3, mod_mul_add _ _ _ hc]
  have h4 : i * t.cols + c = t.cols * i + c := by ring
  rw [h4, div_mul_add _ _ _ hc, mod_mul_add _ _ _ hc]

/-- Witness for C5 at the spec's own example: a 2-row state tiled with
count 3; row 1 * 3 + 2 = 5 of the result is original row 1. -/
theorem tile_rows_grouped_witness :
    (tile (T2.mk 2 2 (fun i j => 10 * i + j)) 3).rows = 2 * 3 ∧
    (tile (T2.mk 2 2 (fun i j => 10 * i + j)) 3).cols = 2 ∧
    (tile (T2.mk 2 2 (fun i j => 10 * i + j)) 3).get (1 * 3 + 2) 0 =
      (T2.mk 2 2 (fun i j => 10 * i + j)).get 1 0 :=
  tile_rows_grouped (T2.mk 2 2 (fun i j => 10 * i + j)) 3 1 2 0 (by decide)
    (by decide) (by decide)

/-- C1: the code evaluates `token_edit_reward` on gold row [7,8,8,7] and
predicted row [9,7,9,9] with shift tolerance to reward 1/2 at position 1:
`np.abs(np.min(k - positions))` is the distance 2 to the last occurrence of
7 (position 3), not the minimum absolute distance 1 to the nearest
occurrence (position 0), which per the spec (and the code's own comment
"select the position that is closest") would give 1 - 1/4 = 3/4. -/
theorem token_edit_reward_uses_last_occurrence :
    token_edit_reward [[7, 8, 8, 7]] [[9, 7, 9, 9]] true = some [[0, 1/2, 0, 0]] ∧
    (1 : ℚ) - 1/4 ≠ 1/2 := by with_unfolding_all decide

/-- C4: `build_vocab` with `max_size = -1` always fails its size assertion
(`len(vocab_tokens) <= max_size + 4` becomes `… <= 3` while the four
specials alone give length at least 4), and `sort_and_cut`'s Python slice
`[:-1]` drops the final surviving token instead of keeping all of them. -/
theorem build_vocab_unbounded_fails :
    build_vocab [("a", 1)] (-1) (-1) = none ∧
    sort_and_cut [("a", 2), ("b", 1)] (-1) = ["a"] := by with_unfolding_all decide

/-- C2 counterexample: gold row [1,2,0,3,4] against predicted row
[1,2,8,3,4] has two maximal common runs of length 2 ([1,2] at predicted
positions 0-1 and [3,4] at positions 3-4); the scan keeps the run
encountered FIRST (the update fires only on strictly greater length), so
the rewards are [1,1,0,0,0] and not the [0,0,0,1,1] the last-run tie-break
of the claim would give. -/
theorem token_lcs_tiebreak_keeps_first :
    token_lcs_reward [[1, 2, 0, 3, 4]] [[1, 2, 8, 3, 4]] = [[1, 1, 0, 0, 0]] ∧
    ([[1, 1, 0, 0, 0]] : List (List ℚ)) ≠ [[0, 0, 0, 1, 1]] := by
  with_unfolding_all decide

/-- C7 counterexample: on grids of unequal shapes ((1,1) versus (2,1)) only
`token_edit_reward` fails its shape assertion; `token_recall_reward` and
`token_lcs_reward` silently return a grid shaped like the predicted grid. -/
theorem unequal_shapes_not_fatal_for_lcs_recall :
    gridShape [[1]] ≠ gridShape [[2], [3]] ∧
    token_recall_reward [[1]] [[2], [3]] = [[0], [0]] ∧
    token_lcs_reward [[1]] [[2], [3]] = [[0], [0]] ∧
    token_edit_reward [[1]] [[2], [3]] true = none := by with_unfolding_all decide

theorem rangeMap_getD {alpha : Type} (n j : Nat) (f : Nat → alpha) (d : alpha) :
    ((List.range n).map f).getD j d = if j < n then f j else d := by
  by_cases h : j < n
  · simp [List.getElem?_map, List.getElem?_range h, h]
  · have hle : n ≤ j := Nat.le_of_not_lt h
    simp [List.getElem?_map, List.getElem?_eq_none (l := List.range n)
      (by simpa using hle), h]

theorem map_getD {alpha beta : Type} (p : List alpha) (f : alpha → beta) (k : Nat)
    (d : beta) (e : alpha) (h : k < p.length) : (p.map f).getD k d = f (p.getD k e) := by
  rw [List.getD_eq_getElem (p.map f) d (by simpa using h), List.getD_eq_getElem p e h,
    List.getElem_map]

theorem getD_mem_of_lt {alpha : Type} (l : List alpha) (n : Nat) (d : alpha)
    (h : n < l.length) : l.getD n d ∈ l := by
  rw [List.getD_eq_getElem l d h]
  exact List.getElem_mem h

/-- C7 (amended): on equal shapes all three reward functions return a float
grid with exactly the predicted grid's row count and row lengths, and
`token_edit_reward` fails its assertion exactly on unequal shapes;
`token_recall_reward` and `token_lcs_reward` return a grid shaped like the
predicted grid unconditionally. -/
theorem reward_functions_shapes :
    (∀ (gold pred : List (List Int)) (shifted : Bool),
      gridShape gold = gridShape pred →
      ∃ er, token_edit_reward gold pred shifted = some er ∧
        er.length = pred.length ∧
        ∀ j, (er.getD j []).length = (pred.getD j []).length) ∧
    (∀ (gold pred : List (List Int)) (shifted : Bool),
      gridShape gold ≠ gridShape pred → token_edit_reward gold pred shifted = none) ∧
    (∀ gold pred : List (List Int),
      (token_recall_reward gold pred).length = pred.length ∧
      ∀ j, ((token_recall_reward gold pred).getD j []).length =
        (pred.getD j []).length) ∧
    (∀ gold pred : List (List Int),
      (token_lcs_reward gold pred).length = pred.length ∧
      ∀ j, ((token_lcs_reward gold pred).getD j []).length =
        (pred.getD j []).length) := by
  refine ⟨?_, ?_, ?_, ?_⟩
  · intro gold pred shifted h
    refine ⟨_, by rw [token_edit_reward, if_pos h], by simp, ?_⟩
    intro j
    rw [rangeMap_getD]
    by_cases hj : j < pred.length
    · rw [if_pos hj]
      by_cases hgj : j < gold.length
      · simp [hgj, editRow]
      · simp [hgj]
    · rw [if_neg hj, List.getD_eq_default _ _ (Nat.le_of_not_lt hj)]
      rfl
  · intro gold pred shifted h
    rw [token_edit_reward, if_neg h]
  · intro gold pred
    refine ⟨by simp [token_recall_reward], ?_⟩
    intro j
    rw [token_recall_reward, rangeMap_getD]
    by_cases hj : j < pred.length
    · rw [if_pos hj]
      by_cases hgj : j < gold.length
      · simp [hgj]
      · simp [hgj]
    · rw [if_neg hj, List.getD_eq_default _ _ (Nat.le_of_not_lt hj)]
      rfl
  · intro gold pred
    refine ⟨by simp [token_lcs_reward], ?_⟩
    intro j
    rw [token_lcs_reward, rangeMap_getD]
    by_cases hj : j < pred.length
    · rw [if_pos hj]
      by_cases hgj : j < gold.length
      · simp [hgj, longest_common_substring_rewards]
      · simp [hgj]
    · rw [if_neg hj, List.getD_eq_default _ _ (Nat.le_of_not_lt hj)]
      rfl

/-- C10: on equal-shaped rectangular grids `token_edit_reward` succeeds and
its reward at every position is at most `token_recall_reward`'s reward
there (1 whenever the predicted id occurs in the gold row, which covers
both the exact-match reward 1 and the shift reward `1 - d/L ≤ 1`; both
functions give 0 where the id does not occur in the gold row). -/
theorem token_recall_dominates_token_edit (gold pred : List (List Int))
    (shifted : Bool) (hg : IsRect gold) (hp : IsRect pred)
    (hshape : gridShape gold = gridShape pred) :
    ∃ er, token_edit_reward gold pred shifted = some er ∧
      ∀ j k, j < pred.length → k < (pred.getD j []).length →
        (er.getD j []).getD k 0 ≤
          ((token_recall_reward gold pred).getD j []).getD k 0 := by
  have hrows : gold.length = pred.length := congrArg Prod.fst hshape
  refine ⟨_, by rw [token_edit_reward, if_pos hshape], ?_⟩
  intro j k hj hk
  have hjg : j < gold.length := by omega
  have hgrow : (gold.getD j []).length = (gridShape gold).2 :=
    hg _ (getD_mem_of_lt _ _ _ hjg)
  have hprow : (pred.getD j []).length = (gridShape pred).2 :=
    hp _ (getD_mem_of_lt _ _ _ hj)
  have hkg : k < (gold.getD j []).length := by
    rw [hgrow, congrArg Prod.snd hshape]
    omega
  rw [rangeMap_getD, if_pos hj, if_pos hjg, token_recall_reward, rangeMap_getD,
    if_pos hj, if_pos hjg, editRow, rangeMap_getD, if_pos hk, if_pos hkg,
    map_getD _ _ _ _ 0 hk]
  rw [editCell]
  by_cases h1 : (pred.getD j []).getD k 0 = (gold.getD j []).getD k 0
  · rw [if_pos h1, if_pos (h1 ▸ getD_mem_of_lt _ _ _ hkg)]
  · rw [if_neg h1]
    by_cases h2 : (pred.getD j []).getD k 0 ∈ gold.getD j [] ∧ shifted = true
    · rw [if_pos h2, if_pos h2.1]
      have hd : (0 : ℚ) ≤ (closestDist (gold.getD j []) k ((pred.getD j []).getD k 0) : ℚ) /
          ((gridShape gold).2 : ℚ) := by positivity
      linarith
    · rw [if_neg h2]
      by_cases h3 : (pred.getD j []).getD k 0 ∈ gold.getD j []
      · rw [if_pos h3]
        norm_num
      · rw [if_neg h3]

/-- Witness for C10 at gold [[1,2]], pred [[2,9]] with shift tolerance. -/
theorem token_recall_dominates_token_edit_witness :
    ∃ er, token_edit_reward [[1, 2]] [[2, 9]] true = some er ∧
      ∀ j k, j < ([[2, 9]] : List (List Int)).length →
        k < (([[2, 9]] : List (List Int)).getD j []).length →
        (er.getD j []).getD k 0 ≤
          ((token_recall_reward [[1, 2]] [[2, 9]]).getD j []).getD k 0 :=
  token_recall_dominates_token_edit [[1, 2]] [[2, 9]] true (by decide) (by decide)
    (by decide)

theorem pyAnd_partition (a b : Int) (ha : a = 0 ∨ a = 1) (hb : b = 0 ∨ b = 1) :
    pyAnd (1 - a) (1 - b) + pyAnd a b + pyAnd (pyNot a) b + pyAnd a (pyNot b) = 1 := by
  rcases ha with rfl | rfl <;> rcases hb with rfl | rfl <;> decide

theorem counts_partition (h r : List Int) (hh : ∀ x ∈ h, x = 0 ∨ x = 1)
    (hr : ∀ x ∈ r, x = 0 ∨ x = 1) (hlen : h.length = r.length) :
    tp0 h r + tp1 h r + fn1 h r + fp1 h r = (h.length : Int) := by
  induction h generalizing r with
  | nil =>
    cases r with
    | nil => simp [tp0, tp1, fn1, fp1]
    | cons b t => simp at hlen
  | cons a h' ih =>
    cases r with
    | nil => simp at hlen
    | cons b r' =>
      have ha : a = 0 ∨ a = 1 := hh a (by simp)
      have hb : b = 0 ∨ b = 1 := hr b (by simp)
      have hrest := ih r' (fun x hx => hh x (by simp [hx]))
        (fun x hx => hr x (by simp [hx])) (by simpa using hlen)
      have hhead := pyAnd_partition a b ha hb
      simp only [tp0, tp1, fn1, fp1, List.zip_cons_cons, List.map_cons,
        List.sum_cons, List.length_cons] at *
      push_cast at *
      omega

/-- C8: on equal-length 0/1 arrays `f1_bin` passes both of its assertions
and returns a pair of F1 scores, and an F1 whose precision + recall
denominator is zero — including the `0/0 = nan` precision or recall of an
empty class, for which the comparison `nan > 0` is false — is 0 rather
than an error. -/
theorem f1_bin_zero_denominator (h r : List Int) (hlen : h.length = r.length)
    (hh : ∀ x ∈ h, x = 0 ∨ x = 1) (hr : ∀ x ∈ r, x = 0 ∨ x = 1) :
    ∃ f1 f0, f1_bin h r = some (f1, f0) ∧
      ((∀ p q, prec1 h r = some p → rec1 h r = some q → p + q ≤ 0) → f1 = 0) ∧
      ((∀ p q, prec0 h r = some p → rec0 h r = some q → p + q ≤ 0) → f0 = 0) := by
  have hassert : tp0 h r + tp1 h r + fn1 h r + fp1 h r = (h.length : Int) :=
    counts_partition h r hh hr hlen
  refine ⟨f1val (prec1 h r) (rec1 h r), f1val (prec0 h r) (rec0 h r), ?_, ?_, ?_⟩
  · rw [f1_bin, if_pos hlen, if_pos hassert]
  · intro hcond
    cases hp : prec1 h r with
    | none => simp [f1val, hp]
    | some p =>
      cases hq : rec1 h r with
      | none => simp [f1val, hp, hq]
      | some q =>
        have hle := hcond p q hp hq
        simp only [f1val]
        rw [if_neg (by linarith : ¬ p + q > 0)]
  · intro hcond
    cases hp : prec0 h r with
    | none => simp [f1val, hp]
    | some p =>
      cases hq : rec0 h r with
      | none => simp [f1val, hp, hq]
      | some q =>
        have hle := hcond p q hp hq
        simp only [f1val]
        rw [if_neg (by linarith : ¬ p + q > 0)]

/-- Witness for C8 at the spec's example: all-zero hypothesis and
reference arrays of length 5, where the positive-class F1 is 0 (its
precision and recall are both 0/0) and the negative-class F1 is 1. -/
theorem f1_bin_zero_denominator_witness :
    (∃ f1 f0, f1_bin (List.replicate 5 0) (List.replicate 5 0) = some (f1, f0) ∧
      ((∀ p q, prec1 (List.replicate 5 0) (List.replicate 5 0) = some p →
        rec1 (List.replicate 5 0) (List.replicate 5 0) = some q → p + q ≤ 0) →
        f1 = 0) ∧
      ((∀ p q, prec0 (List.replicate 5 0) (List.replicate 5 0) = some p →
        rec0 (List.replicate 5 0) (List.replicate 5 0) = some q → p + q ≤ 0) →
        f0 = 0)) ∧
    f1_bin (List.replicate 5 0) (List.replicate 5 0) = some (0, 1) :=
  ⟨f1_bin_zero_denominator (List.replicate 5 0) (List.replicate 5 0) (by decide)
    (by decide) (by decide), by with_unfolding_all decide⟩

theorem zip3_cons (a : String) (s : List String) (b : String) (t : List String)
    (c : String) (w : List String) :
    zip3 (a :: s) (b :: t) (c :: w) = (a, b, c) :: zip3 s t w := by
  simp [zip3]

theorem zip3_take (src trg wts : List String) :
    zip3 src trg wts =
      zip3 (src.take (min src.length (min trg.length wts.length)))
        (trg.take (min src.length (min trg.length wts.length)))
        (wts.take (min src.length (min trg.length wts.length))) := by
  induction src generalizing trg wts with
  | nil => simp [zip3]
  | cons a s ih =>
    cases trg with
    | nil => simp [zip3]
    | cons b t =>
      cases wts with
      | nil => simp [zip3]
      | cons c w =>
        simp only [List.length_cons]
        have hmin : min (s.length + 1) (min (t.length + 1) (w.length + 1)) =
            min s.length (min t.length w.length) + 1 := by omega
        rw [hmin, List.take_succ_cons, List.take_succ_cons, List.take_succ_cons,
          zip3_cons, zip3_cons, ih t w]

theorem weightedFold_isSome (lw : Bool) (pyexp : ℚ → ℚ)
    (l : List (String × String × String))
    (hl : ∀ e ∈ l, (parseWeights e.2.2 lw pyexp).isSome) :
    (l.foldr (weightedStep lw pyexp) (some [])).isSome := by
  induction l with
  | nil => simp
  | cons e t ih =>
    have ht := ih (fun x hx => hl x (by simp [hx]))
    rcases Option.isSome_iff_exists.mp ht with ⟨exs, hexs⟩
    rcases Option.isSome_iff_exists.mp (hl e (by simp)) with ⟨ws, hws⟩
    rw [List.foldr_cons]
    simp [weightedStep, hexs, hws]

/-- C9: the weighted assembler consumes its three files in lock-step, so
its result only depends on (exactly) the line-aligned triples up to the
length of the shortest file — truncating all three files there changes
nothing — and when the considered weight lines parse, it succeeds rather
than raising an error about the dropped surplus lines. -/
theorem weighted_assembly_stops_at_shortest (src trg wts : List String)
    (lw : Bool) (pyexp : ℚ → ℚ)
    (hw : ∀ e ∈ zip3 src trg wts, (parseWeights e.2.2 lw pyexp).isSome) :
    (weightedTranslationDatasetInit src trg wts lw pyexp).isSome ∧
    weightedTranslationDatasetInit src trg wts lw pyexp =
      weightedTranslationDatasetInit
        (src.take (min src.length (min trg.length wts.length)))
        (trg.take (min src.length (min trg.length wts.length)))
        (wts.take (min src.length (min trg.length wts.length))) lw pyexp := by
  constructor
  · exact weightedFold_isSome lw pyexp _ hw
  · unfold weightedTranslationDatasetInit
    rw [← zip3_take]

/-- Witness for C9: three source lines, two target lines, one weight line;
only the first line-aligned triple is considered and assembly succeeds. -/
theorem weighted_assembly_stops_at_shortest_witness :
    (weightedTranslationDatasetInit ["s1", "s2", "s3"] ["t1", "t2"] ["1.0 2.0"]
      false id).isSome ∧
    weightedTranslationDatasetInit ["s1", "s2", "s3"] ["t1", "t2"] ["1.0 2.0"]
      false id =
      weightedTranslationDatasetInit
        ((["s1", "s2", "s3"] : List String).take
          (min (["s1", "s2", "s3"] : List String).length
            (min (["t1", "t2"] : List String).length
              (["1.0 2.0"] : List String).length)))
        ((["t1", "t2"] : List String).take
          (min (["s1", "s2", "s3"] : List String).length
            (min (["t1", "t2"] : List String).length
              (["1.0 2.0"] : List String).length)))
        ((["1.0 2.0"] : List String).take
          (min (["s1", "s2", "s3"] : List String).length
            (min (["t1", "t2"] : List String).length
              (["1.0 2.0"] : List String).length))) false id :=
  weighted_assembly_stops_at_shortest ["s1", "s2", "s3"] ["t1", "t2"] ["1.0 2.0"]
    false id (by with_unfolding_all decide)


theorem pairwise_freqThenTok_orderedInsert (x : String × Nat)
    (l : List (String × Nat)) (hl : l.Pairwise freqThenTok)
    (hx : ∀ b ∈ l, x.2 = b.2 → x.1 < b.1) :
    (List.orderedInsert freqGe x l).Pairwise freqThenTok := by
  induction l with
  | nil => simp
  | cons b t ih =>
    rw [List.orderedInsert]
    by_cases h : freqGe x b
    · rw [if_pos h]
      refine List.Pairwise.cons ?_ hl
      intro c hc
      have hb2 : b.2 ≤ x.2 := h
      rcases List.mem_cons.mp hc with rfl | hct
      · rcases lt_or_eq_of_le hb2 with hlt | heq
        · exact Or.inl hlt
        · exact Or.inr ⟨heq.symm, hx c (by simp) heq.symm⟩
      · have hbc := (List.pairwise_cons.mp hl).1 c hct
        rcases hbc with hlt | ⟨heq, _⟩
        · exact Or.inl (lt_of_lt_of_le hlt hb2)
        · rcases lt_or_eq_of_le hb2 with hblt | hbeq
          · exact Or.inl (by omega)
          · exact Or.inr ⟨by omega, hx c (by simp [hct]) (by omega)⟩
    · rw [if_neg h]
      have hxb : x.2 < b.2 := Nat.lt_of_not_le h
      refine List.Pairwise.cons ?_
        (ih (List.pairwise_cons.mp hl).2 (fun c hc hc2 => hx c (by simp [hc]) hc2))
      intro c hc
      have hmem : c ∈ x :: t := (List.perm_orderedInsert freqGe x t).mem_iff.mp hc
      rcases List.mem_cons.mp hmem with rfl | hct
      · exact Or.inl hxb
      · exact (List.pairwise_cons.mp hl).1 c hct

theorem pairwise_freqThenTok_insertionSort (l : List (String × Nat))
    (hl : l.Pairwise (fun a b => a.1 < b.1)) :
    (List.insertionSort freqGe l).Pairwise freqThenTok := by
  induction l with
  | nil => simp
  | cons x t ih =>
    rw [List.insertionSort]
    refine pairwise_freqThenTok_orderedInsert x _ (ih (List.pairwise_cons.mp hl).2) ?_
    intro b hb _
    exact (List.pairwise_cons.mp hl).1 b
      ((List.perm_insertionSort freqGe t).mem_iff.mp hb)

theorem pairwise_tokLt_insertionSort (l : List (String × Nat))
    (hnd : (l.map Prod.fst).Nodup) :
    (List.insertionSort tokLe l).Pairwise (fun a b => a.1 < b.1) := by
  have hs : (List.insertionSort tokLe l).Pairwise tokLe :=
    List.sorted_insertionSort tokLe l
  have hnd2 : ((List.insertionSort tokLe l).map Prod.fst).Nodup :=
    ((List.perm_insertionSort tokLe l).map Prod.fst).nodup_iff.mpr hnd
  have hne : (List.insertionSort tokLe l).Pairwise (fun a b => a.1 ≠ b.1) :=
    List.pairwise_map.mp hnd2
  exact (hs.and hne).imp (fun h => lt_of_le_of_ne h.1 h.2)

/-- C3: with min-frequency filtering enabled and a non-negative size
limit, `build_vocab` succeeds and returns the four special tokens in their
fixed order followed by the surviving tokens in strictly descending
frequency with ties at equal frequency in ascending alphabetical order,
truncated to the size limit; in particular counts b:2, a:2, c:1 yield the
order a, b, c after the specials. -/
theorem build_vocab_sorted :
    (∀ (counter : List (String × Nat)) (max_size min_freq : Int),
      (counter.map Prod.fst).Nodup → min_freq > -1 → 0 ≤ max_size →
      ∃ sortedTokens : List (String × Nat),
        sortedTokens.Perm (filter_min counter min_freq) ∧
        sortedTokens.Pairwise freqThenTok ∧
        build_vocab counter max_size min_freq =
          some (specials ++ (sortedTokens.take max_size.toNat).map Prod.fst)) ∧
    build_vocab [("b", 2), ("a", 2), ("c", 1)] 100 1 =
      some (specials ++ ["a", "b", "c"]) := by
  constructor
  · intro counter max_size min_freq hnd hmf hms
    have hndc : ((filter_min counter min_freq).map Prod.fst).Nodup :=
      ((List.filter_sublist counter).map Prod.fst).nodup hnd
    refine ⟨List.insertionSort freqGe
      (List.insertionSort tokLe (filter_min counter min_freq)), ?_, ?_, ?_⟩
    · exact (List.perm_insertionSort freqGe _).trans (List.perm_insertionSort tokLe _)
    · exact pairwise_freqThenTok_insertionSort _ (pairwise_tokLt_insertionSort _ hndc)
    · have hsc : sort_and_cut (filter_min counter min_freq) max_size =
          ((List.insertionSort freqGe
            (List.insertionSort tokLe (filter_min counter min_freq))).take
              max_size.toNat).map Prod.fst := by
        simp only [sort_and_cut, pySlice]
        rw [if_pos hms]
      simp only [build_vocab]
      rw [if_pos hmf, hsc]
      have h2 : (((specials ++ ((List.insertionSort freqGe
          (List.insertionSort tokLe (filter_min counter min_freq))).take
            max_size.toNat).map Prod.fst).length : Nat) : Int) ≤
          max_size + (specials.length : Int) := by
        have h3 : (((List.insertionSort freqGe
            (List.insertionSort tokLe (filter_min counter min_freq))).take
              max_size.toNat).map Prod.fst).length ≤ max_size.toNat := by
          simp only [List.length_map, List.length_take]
          exact Nat.min_le_left _ _
        have h4 : (max_size.toNat : Int) = max_size := Int.toNat_of_nonneg hms
        rw [List.length_append]
        push_cast
        omega
      have h1 : (specials ++ ((List.insertionSort freqGe
          (List.insertionSort tokLe (filter_min counter min_freq))).take
            max_size.toNat).map Prod.fst).getD DEFAULT_UNK_ID "" = UNK_TOKEN := rfl
      rw [if_pos h1, if_pos h2]
  · with_unfolding_all decide

theorem scanStep_fst (p g : List Int) (st : Nat × Nat) (xy : Nat × Nat) :
    (scanStep p g st xy).1 = max st.1 (slen p g xy.1 xy.2) := by
  rw [scanStep]
  split <;> simp <;> omega

theorem foldl_scan_fst (p g : List Int) (l : List (Nat × Nat)) (st : Nat × Nat) :
    (l.foldl (scanStep p g) st).1 =
      l.foldl (fun m x => max m (slen p g x.1 x.2)) st.1 := by
  induction l generalizing st with
  | nil => rfl
  | cons e t ih => rw [List.foldl_cons, List.foldl_cons, ih, scanStep_fst]

theorem foldl_max_init (f : Nat × Nat → Nat) (l : List (Nat × Nat)) (a : Nat) :
    a ≤ l.foldl (fun m x => max m (f x)) a := by
  induction l generalizing a with
  | nil => exact le_rfl
  | cons e t ih => exact le_trans (Nat.le_max_left a (f e)) (ih _)

theorem foldl_max_le_of_mem (f : Nat × Nat → Nat) (l : List (Nat × Nat)) (a : Nat)
    (e : Nat × Nat) (he : e ∈ l) : f e ≤ l.foldl (fun m x => max m (f x)) a := by
  induction l generalizing a with
  | nil => cases he
  | cons x t ih =>
    rw [List.foldl_cons]
    rcases List.mem_cons.mp he with rfl | ht
    · exact le_trans (Nat.le_max_right a (f e)) (foldl_max_init f t _)
    · exact ih _ ht

theorem foldl_max_le (f : Nat × Nat → Nat) (l : List (Nat × Nat)) (a M : Nat)
    (ha : a ≤ M) (hl : ∀ e ∈ l, f e ≤ M) :
    l.foldl (fun m x => max m (f x)) a ≤ M := by
  induction l generalizing a with
  | nil => exact ha
  | cons x t ih =>
    rw [List.foldl_cons]
    exact ih _ (max_le ha (hl x (by simp))) (fun e he => hl e (by simp [he]))

theorem foldl_scan_cases (p g : List Int) (l : List (Nat × Nat)) (st : Nat × Nat) :
    l.foldl (scanStep p g) st = st ∨
    ∃ e ∈ l, l.foldl (scanStep p g) st = (slen p g e.1 e.2, e.1) ∧
      st.1 < slen p g e.1 e.2 := by
  induction l generalizing st with
  | nil => exact Or.inl rfl
  | cons x t ih =>
    rw [List.foldl_cons, scanStep]
    by_cases h : slen p g x.1 x.2 > st.1
    · rw [if_pos h]
      rcases ih (slen p g x.1 x.2, x.1) with heq | ⟨e, he, heq, hlt⟩
      · exact Or.inr ⟨x, by simp, heq, h⟩
      · exact Or.inr ⟨e, by simp [he], heq, lt_trans h (by simpa using hlt)⟩
    · rw [if_neg h]
      rcases ih st with heq | ⟨e, he, heq, hlt⟩
      · exact Or.inl heq
      · exact Or.inr ⟨e, by simp [he], heq, hlt⟩

theorem foldl_scan_const (p g : List Int) (l : List (Nat × Nat)) (st : Nat × Nat)
    (h : ∀ e ∈ l, slen p g e.1 e.2 ≤ st.1) : l.foldl (scanStep p g) st = st := by
  induction l with
  | nil => rfl
  | cons x t ih =>
    rw [List.foldl_cons, scanStep, if_neg (by have := h x (by simp); omega)]
    exact ih (fun e he => h e (by simp [he]))

theorem slen_le (p g : List Int) (x y : Nat) :
    slen p g x y ≤ x ∧ slen p g x y ≤ y := by
  induction x generalizing y with
  | zero => simp [slen]
  | succ x ih =>
    cases y with
    | zero => simp [slen]
    | succ y =>
      simp only [slen]
      split
      · have := ih y
        omega
      · omega

theorem slen_match (p g : List Int) (x y : Nat) :
    ∀ t < slen p g x y, p.getD (x - 1 - t) 0 = g.getD (y - 1 - t) 0 := by
  induction x generalizing y with
  | zero => simp [slen]
  | succ x ih =>
    cases y with
    | zero => simp [slen]
    | succ y =>
      intro t ht
      simp only [slen] at ht
      by_cases h : p.getD x 0 = g.getD y 0
      · rw [if_pos h] at ht
        cases t with
        | zero => simpa using h
        | succ t =>
          have hrec := ih y t (by omega)
          have e1 : x + 1 - 1 - (t + 1) = x - 1 - t := by omega
          have e2 : y + 1 - 1 - (t + 1) = y - 1 - t := by omega
          rw [e1, e2]
          exact hrec
      · rw [if_neg h] at ht
        omega

theorem slen_ge_of_run (p g : List Int) (s y L : Nat)
    (h : ∀ t < L, p.getD (s + t) 0 = g.getD (y + t) 0) :
    L ≤ slen p g (s + L) (y + L) := by
  induction L with
  | zero => simp
  | succ L ih =>
    have hL := h L (by omega)
    have e1 : s + (L + 1) = (s + L) + 1 := rfl
    have e2 : y + (L + 1) = (y + L) + 1 := rfl
    rw [e1, e2]
    simp only [slen]
    rw [if_pos hL]
    have := ih (fun t ht => h t (by omega))
    omega

theorem mem_scanPairs (P G x y : Nat) :
    (x, y) ∈ scanPairs P G ↔ 1 ≤ x ∧ x ≤ P ∧ 1 ≤ y ∧ y ≤ G := by
  simp only [scanPairs, List.mem_flatMap, List.mem_map, List.mem_range, Prod.mk.injEq]
  constructor
  · rintro ⟨a, ha, b, hb, h1, h2⟩
    omega
  · intro h
    exact ⟨x - 1, by omega, y - 1, by omega, by omega, by omega⟩

theorem lcsr_body (p g : List Int) :
    longest_common_substring_rewards p g =
      (List.range p.length).map (fun k =>
        if ((scanPairs p.length g.length).foldl (scanStep p g) (0, 0)).2 -
            ((scanPairs p.length g.length).foldl (scanStep p g) (0, 0)).1 ≤ k ∧
          k < ((scanPairs p.length g.length).foldl (scanStep p g) (0, 0)).2 then 1
        else 0) := rfl

theorem lcsr_eq_marksRun (p g : List Int) :
    ∃ s L,
      longest_common_substring_rewards p g = marksRun p.length s L ∧
      (0 < L → ∃ y, isCommonRun p g s y L) ∧
      (∀ s' y' L', isCommonRun p g s' y' L' → L' ≤ L) := by
  have hfst : ((scanPairs p.length g.length).foldl (scanStep p g) (0, 0)).1 =
      (scanPairs p.length g.length).foldl (fun m x => max m (slen p g x.1 x.2)) 0 :=
    foldl_scan_fst p g _ (0, 0)
  rcases foldl_scan_cases p g (scanPairs p.length g.length) (0, 0) with
    h0 | ⟨e, he, heq, hlt⟩
  · have hM0 : (scanPairs p.length g.length).foldl
        (fun m x => max m (slen p g x.1 x.2)) 0 = 0 := by
      rw [← hfst, h0]
    refine ⟨0, 0, ?_, fun h => absurd h (lt_irrefl 0), ?_⟩
    · rw [lcsr_body, h0, marksRun]
      apply List.map_congr_left
      intro k _
      simp
    · intro s' y' L' hrun
      rcases Nat.eq_zero_or_pos L' with rfl | hL'
      · exact Nat.zero_le _
      · have hs := slen_ge_of_run p g s' y' L' hrun.2.2
        have hmem : (s' + L', y' + L') ∈ scanPairs p.length g.length :=
          (mem_scanPairs _ _ _ _).mpr
            (by have h1 := hrun.1; have h2 := hrun.2.1; omega)
        have hle : slen p g (s' + L') (y' + L') ≤
            (scanPairs p.length g.length).foldl
              (fun m x => max m (slen p g x.1 x.2)) 0 :=
          foldl_max_le_of_mem (fun x => slen p g x.1 x.2) _ 0 _ hmem
        rw [hM0] at hle
        omega
  · obtain ⟨X, Y⟩ := e
    have hb := (mem_scanPairs p.length g.length X Y).mp he
    have hMle : slen p g X Y ≤ X := (slen_le p g X Y).1
    have hMleY : slen p g X Y ≤ Y := (slen_le p g X Y).2
    refine ⟨X - slen p g X Y, slen p g X Y, ?_, ?_, ?_⟩
    · rw [lcsr_body, heq, marksRun]
      apply List.map_congr_left
      intro k _
      have hiff : ((slen p g X Y, X).2 - (slen p g X Y, X).1 ≤ k ∧
          k < (slen p g X Y, X).2) ↔
          (X - slen p g X Y ≤ k ∧ k < X - slen p g X Y + slen p g X Y) := by
        dsimp only
        omega
      rw [if_congr hiff rfl rfl]
    · intro hpos
      refine ⟨Y - slen p g X Y, by omega, by omega, ?_⟩
      intro t ht
      have hm := slen_match p g X Y (slen p g X Y - 1 - t) (by omega)
      have e1 : X - 1 - (slen p g X Y - 1 - t) = X - slen p g X Y + t := by omega
      have e2 : Y - 1 - (slen p g X Y - 1 - t) = Y - slen p g X Y + t := by omega
      rw [e1, e2] at hm
      exact hm
    · intro s' y' L' hrun
      rcases Nat.eq_zero_or_pos L' with rfl | hL'
      · exact Nat.zero_le _
      · have hs := slen_ge_of_run p g s' y' L' hrun.2.2
        have hmem : (s' + L', y' + L') ∈ scanPairs p.length g.length :=
          (mem_scanPairs _ _ _ _).mpr
            (by have h1 := hrun.1; have h2 := hrun.2.1; omega)
        have hle : slen p g (s' + L') (y' + L') ≤
            (scanPairs p.length g.length).foldl
              (fun m x => max m (slen p g x.1 x.2)) 0 :=
          foldl_max_le_of_mem (fun x => slen p g x.1 x.2) _ 0 _ hmem
        have hM : (scanPairs p.length g.length).foldl
            (fun m x => max m (slen p g x.1 x.2)) 0 = slen p g X Y := by
          rw [← hfst, heq]
        rw [hM] at hle
        omega

/-- C6: in every row processed by `token_lcs_reward`, the rewards are 1.0
exactly on an interval of predicted positions that carries a common
contiguous run (a common substring, not subsequence) of the predicted and
gold rows of maximal length among all common runs, and 0 elsewhere; on
gold [1,2,3,4] and predicted [9,2,3,9] the row's rewards are [0,1,1,0]. -/
theorem token_lcs_marks_longest_run :
    (∀ (gold pred : List (List Int)) (j : Nat), j < gold.length → j < pred.length →
      ∃ s L,
        (token_lcs_reward gold pred).getD j [] =
          marksRun (pred.getD j []).length s L ∧
        (0 < L → ∃ y, isCommonRun (pred.getD j []) (gold.getD j []) s y L) ∧
        (∀ s' y' L', isCommonRun (pred.getD j []) (gold.getD j []) s' y' L' →
          L' ≤ L)) ∧
    token_lcs_reward [[1, 2, 3, 4]] [[9, 2, 3, 9]] = [[0, 1, 1, 0]] := by
  constructor
  · intro gold pred j hjg hjp
    have hrow : (token_lcs_reward gold pred).getD j [] =
        longest_common_substring_rewards (pred.getD j []) (gold.getD j []) := by
      rw [token_lcs_reward, rangeMap_getD, if_pos hjp, if_pos hjg]
    rw [hrow]
    exact lcsr_eq_marksRun _ _
  · with_unfolding_all decide

/-- C2 (amended): when a cell `(X, Y)` of the scan is the first one (in the
order of increasing predicted position, then increasing gold position)
whose matched-run length reaches the maximum `M > 0`, the row's rewards
mark exactly the run of length `M` ending at predicted position `X` — the
tie-break keeps the run encountered first, because the scan updates its
best only on strictly greater length. -/
theorem token_lcs_first_run_tiebreak (p g : List Int) (l1 l2 : List (Nat × Nat))
    (X Y M : Nat)
    (hdec : scanPairs p.length g.length = l1 ++ (X, Y) :: l2)
    (hXY : slen p g X Y = M)
    (hM : 0 < M)
    (hbefore : ∀ e ∈ l1, slen p g e.1 e.2 < M)
    (hafter : ∀ e ∈ l2, slen p g e.1 e.2 ≤ M) :
    longest_common_substring_rewards p g = marksRun p.length (X - M) M := by
  have hfold : (scanPairs p.length g.length).foldl (scanStep p g) (0, 0) = (M, X) := by
    rw [hdec, List.foldl_append]
    have h1 : (l1.foldl (scanStep p g) (0, 0)).1 < M := by
      rw [foldl_scan_fst]
      have h2 : l1.foldl (fun m x => max m (slen p g x.1 x.2)) 0 ≤ M - 1 :=
        foldl_max_le _ _ _ _ (by omega)
          (fun e he => by have := hbefore e he; omega)
      exact Nat.lt_of_le_of_lt h2 (by omega)
    rw [List.foldl_cons]
    have hstep : scanStep p g (l1.foldl (scanStep p g) (0, 0)) (X, Y) = (M, X) := by
      simp only [scanStep, hXY]
      rw [if_pos h1]
    rw [hstep]
    exact foldl_scan_const p g l2 (M, X) (fun e he => by simpa using hafter e he)
  have hMX : M ≤ X := by
    rw [← hXY]
    exact (slen_le p g X Y).1
  rw [lcsr_body, hfold, marksRun]
  apply List.map_congr_left
  intro k _
  have hiff : ((M, X).2 - (M, X).1 ≤ k ∧ k < (M, X).2) ↔
      (X - M ≤ k ∧ k < X - M + M) := by
    dsimp only
    omega
  rw [if_congr hiff rfl rfl]

/-- Witness for C2 at gold row [1,2,0,3,4] and predicted row [1,2,8,3,4]:
the two maximal runs have length 2; the first cell reaching length 2 in
scan order is (2, 2), so positions 0 and 1 are marked. -/
theorem token_lcs_first_run_tiebreak_witness :
    longest_common_substring_rewards [1, 2, 8, 3, 4] [1, 2, 0, 3, 4] =
      marksRun ([1, 2, 8, 3, 4] : List Int).length (2 - 2) 2 :=
  token_lcs_first_run_tiebreak [1, 2, 8, 3, 4] [1, 2, 0, 3, 4]
    [(1, 1), (1, 2), (1, 3), (1, 4), (1, 5), (2, 1)]
    [(2, 3), (2, 4), (2, 5), (3, 1), (3, 2), (3, 3), (3, 4), (3, 5), (4, 1),
      (4, 2), (4, 3), (4, 4), (4, 5), (5, 1), (5, 2), (5, 3), (5, 4), (5, 5)]
    2 2 2 (by decide) (by decide) (by decide) (by decide) (by decide)
